import Mathlib

/-!
Shallow embedding of the stress–strain curve program
(src/stress_strain_curve.py, with the legacy variant src/stress_strain_cuve.py
and the driver src/main.py).

Modelling conventions:
* Python floats are modelled by idealized real numbers (ℝ); `math.exp`,
  `math.tanh` and `math.log10` become `Real.exp`, `Real.tanh` and
  `Real.logb 10`; the float power operator with a real exponent becomes
  `Real.rpow`.
* Python `round(x, n)` is modelled by `roundTo n x`, rounding to the nearest
  multiple of 10⁻ⁿ via Mathlib's integer `round`.
* The `while` loop of `StressStraineCurve.compute` is modelled by a
  well-founded recursion (`computeLoop`); the guard additionally tests
  `0 < delta_sigma_t`, so a configuration on which the Python loop would not
  terminate is modelled as an immediate exit.  All claims about the loop
  assume a positive step, where the two behaviours agree.
* Fallible arithmetic (Python raising `ZeroDivisionError` on float division
  by zero and `ValueError` on `math.log10` of a non-positive number) is
  modelled separately by `Except`-valued variants (`divE`, `log10E`, …).
-/

namespace StressStraineCurve

/-- The parameters stored by `StressStraineCurve.__init__`:
sigma_ys, sigma_uts, Ey, m2, epsilon_p (stored as `ε_p`) and the
discretization step `delta_sigma_t`. -/
structure Params where
  sigma_ys : ℝ
  sigma_uts : ℝ
  Ey : ℝ
  m2 : ℝ
  ε_p : ℝ
  delta_sigma_t : ℝ

/-- The fixed 0.2% engineering offset strain `self.ε_ys = 0.002`. -/
def ε_ys : ℝ := 0.002

/-- Python `round(x, n)`: round to `n` decimal places. -/
noncomputable def roundTo (n : ℕ) (x : ℝ) : ℝ :=
  (round (x * 10 ^ n) : ℤ) / 10 ^ n

noncomputable section

/-- `_R`: engineering yield to engineering tensile ratio. -/
def R (p : Params) : ℝ := p.sigma_ys / p.sigma_uts

/-- `K`: material parameter for the stress–strain curve model. -/
def K (p : Params) : ℝ :=
  1.5 * R p ^ (1.5 : ℝ) - 0.5 * R p ^ (2.5 : ℝ) - R p ^ (3.5 : ℝ)

/-- `_H`: stress–strain curve fitting parameter at a query true stress. -/
def H (p : Params) (sigma_t : ℝ) : ℝ :=
  2 * (sigma_t - (p.sigma_ys + K p * (p.sigma_uts - p.sigma_ys))) /
    (K p * (p.sigma_uts - p.sigma_ys))

/-- `_A_2`: curve fitting constant for the plastic region. -/
def A_2 (p : Params) : ℝ :=
  p.sigma_uts * Real.exp p.m2 / p.m2 ^ p.m2

/-- `_epsilon_2`: true plastic strain in the macro-strain region. -/
def epsilon_2 (p : Params) (sigma_t : ℝ) : ℝ :=
  (sigma_t / A_2 p) ^ (1 / p.m2)

/-- `_sigma_uts_t`: true ultimate tensile stress, rounded to 2 decimals. -/
def sigma_uts_t (p : Params) : ℝ :=
  roundTo 2 (p.sigma_uts * Real.exp p.m2)

/-- `_m1`: curve fitting exponent for the elastic region. -/
def m1 (p : Params) : ℝ :=
  (Real.logb 10 (R p) + (p.ε_p - ε_ys)) /
    Real.logb 10 (Real.logb 10 (1 + p.ε_p) / Real.logb 10 (1 + ε_ys))

/-- `_A1`: curve fitting constant for the elastic region. -/
def A1 (p : Params) : ℝ :=
  p.sigma_ys * (1 + ε_ys) / Real.logb 10 (1 + ε_ys) ^ m1 p

/-- `_epsilon_1`: true plastic strain in the micro-strain region. -/
def epsilon_1 (p : Params) (sigma_t : ℝ) : ℝ :=
  (sigma_t / A1 p) ^ (1 / m1 p)

/-- `_gamma_1`: weighted micro-strain contribution. -/
def gamma_1 (p : Params) (sigma_t : ℝ) : ℝ :=
  epsilon_1 p sigma_t / 2 * (1.0 - Real.tanh (H p sigma_t))

/-- `_gamma_2`: weighted macro-strain contribution. -/
def gamma_2 (p : Params) (sigma_t : ℝ) : ℝ :=
  epsilon_2 p sigma_t / 2 * (1.0 + Real.tanh (H p sigma_t))

/-- `_epsilon_t`: total true strain at a query true stress, with the
elastic-only branch rounded to 4 decimals and the blended branch to 3. -/
def epsilon_t (p : Params) (sigma_t : ℝ) : ℝ :=
  if gamma_1 p sigma_t + gamma_2 p sigma_t ≤ p.ε_p then
    roundTo 4 (sigma_t / p.Ey)
  else
    roundTo 3 (sigma_t / p.Ey + gamma_1 p sigma_t + gamma_2 p sigma_t)

end

/-- Helper for the termination of the stepping loop: advancing the running
stress by one positive step strictly decreases the remaining iteration
bound. -/
theorem ceil_toNat_step (T Δ current : ℝ) (hΔ : 0 < Δ)
    (hcur : current < T - Δ) :
    (⌈(T - Δ - (current + Δ)) / Δ⌉).toNat < (⌈(T - Δ - current) / Δ⌉).toNat := by
  have hx : 0 < (T - Δ - current) / Δ := div_pos (by linarith) hΔ
  have h1 : 0 < ⌈(T - Δ - current) / Δ⌉ := Int.ceil_pos.mpr hx
  have hrw : (T - Δ - (current + Δ)) / Δ = (T - Δ - current) / Δ - 1 := by
    rw [show T - Δ - (current + Δ) = T - Δ - current - Δ from by ring,
      sub_div, div_self hΔ.ne']
  rw [hrw, Int.ceil_sub_one]
  omega

/-- The `while` loop of `compute`: starting from a running stress, repeatedly
step by `delta_sigma_t` while the running stress is below
`sigma_uts_t - delta_sigma_t`, collecting the appended stress and strain
values (the loop guard also requires a positive step; see the module
docstring). -/
noncomputable def computeLoop (p : Params) (current : ℝ) : List ℝ × List ℝ :=
  if h : 0 < p.delta_sigma_t ∧ current < sigma_uts_t p - p.delta_sigma_t then
    ((current + p.delta_sigma_t) :: (computeLoop p (current + p.delta_sigma_t)).1,
     epsilon_t p (current + p.delta_sigma_t) ::
       (computeLoop p (current + p.delta_sigma_t)).2)
  else ([], [])
termination_by (⌈(sigma_uts_t p - p.delta_sigma_t - current) / p.delta_sigma_t⌉).toNat
decreasing_by
  exact ceil_toNat_step (sigma_uts_t p) p.delta_sigma_t current h.1 h.2

/-- `compute`: the full curve, `([0.0] ++ loop stresses ++ [true uts],
[0.0] ++ loop strains ++ [epsilon_t (true uts)])`. -/
noncomputable def compute (p : Params) : List ℝ × List ℝ :=
  ((0 : ℝ) :: (computeLoop p 0).1 ++ [sigma_uts_t p],
   (0 : ℝ) :: (computeLoop p 0).2 ++ [epsilon_t p (sigma_uts_t p)])

/-- The number of iterations the stepping loop performs from a given running
stress, computed a priori. -/
noncomputable def iters (p : Params) (current : ℝ) : ℕ :=
  (⌈(sigma_uts_t p - p.delta_sigma_t - current) / p.delta_sigma_t⌉).toNat

theorem iters_eq_zero (p : Params) (hΔ : 0 < p.delta_sigma_t) (current : ℝ)
    (h : ¬ current < sigma_uts_t p - p.delta_sigma_t) :
    iters p current = 0 := by
  have hle : (sigma_uts_t p - p.delta_sigma_t - current) / p.delta_sigma_t ≤ 0 := by
    apply div_nonpos_of_nonpos_of_nonneg (by linarith) hΔ.le
  have : ⌈(sigma_uts_t p - p.delta_sigma_t - current) / p.delta_sigma_t⌉ ≤ 0 := by
    exact_mod_cast Int.ceil_le.mpr (by exact_mod_cast hle)
  unfold iters
  omega

theorem iters_pos (p : Params) (hΔ : 0 < p.delta_sigma_t) (current : ℝ)
    (h : current < sigma_uts_t p - p.delta_sigma_t) :
    1 ≤ iters p current := by
  have hx : 0 < (sigma_uts_t p - p.delta_sigma_t - current) / p.delta_sigma_t :=
    div_pos (by linarith) hΔ
  have h1 : 0 < ⌈(sigma_uts_t p - p.delta_sigma_t - current) / p.delta_sigma_t⌉ :=
    Int.ceil_pos.mpr hx
  unfold iters
  omega

theorem iters_step (p : Params) (hΔ : 0 < p.delta_sigma_t) (current : ℝ)
    (h : current < sigma_uts_t p - p.delta_sigma_t) :
    iters p current = iters p (current + p.delta_sigma_t) + 1 := by
  have hx : 0 < (sigma_uts_t p - p.delta_sigma_t - current) / p.delta_sigma_t :=
    div_pos (by linarith) hΔ
  have h1 : 0 < ⌈(sigma_uts_t p - p.delta_sigma_t - current) / p.delta_sigma_t⌉ :=
    Int.ceil_pos.mpr hx
  have hrw : (sigma_uts_t p - p.delta_sigma_t - (current + p.delta_sigma_t)) /
      p.delta_sigma_t =
      (sigma_uts_t p - p.delta_sigma_t - current) / p.delta_sigma_t - 1 := by
    rw [show sigma_uts_t p - p.delta_sigma_t - (current + p.delta_sigma_t) =
      sigma_uts_t p - p.delta_sigma_t - current - p.delta_sigma_t from by ring,
      sub_div, div_self hΔ.ne']
  unfold iters
  rw [hrw, Int.ceil_sub_one]
  omega

theorem map_range_succ_shift (f : ℕ → ℝ) (n : ℕ) :
    (List.range (n + 1)).map f = f 0 :: (List.range n).map fun k => f (k + 1) := by
  rw [List.range_succ_eq_map, List.map_cons, List.map_map]
  rfl

/-- Closed form of the stepping loop: from a running stress `current` it
performs exactly `iters p current` iterations, appending the arithmetic
progression of stresses and the corresponding strains. -/
theorem computeLoop_closed (p : Params) (hΔ : 0 < p.delta_sigma_t) :
    ∀ (n : ℕ) (current : ℝ), iters p current = n →
      computeLoop p current =
        ((List.range n).map fun k : ℕ => current + ((k : ℝ) + 1) * p.delta_sigma_t,
         (List.range n).map fun k : ℕ =>
           epsilon_t p (current + ((k : ℝ) + 1) * p.delta_sigma_t)) := by
  intro n
  induction n with
  | zero =>
    intro current h0
    have hcur : ¬ current < sigma_uts_t p - p.delta_sigma_t := by
      intro hlt
      have := iters_pos p hΔ current hlt
      omega
    rw [computeLoop, dif_neg (fun hc => hcur hc.2)]
    simp
  | succ n ih =>
    intro current hsn
    have hcur : current < sigma_uts_t p - p.delta_sigma_t := by
      by_contra hc
      rw [iters_eq_zero p hΔ current hc] at hsn
      omega
    have hnext : iters p (current + p.delta_sigma_t) = n := by
      have := iters_step p hΔ current hcur
      omega
    rw [computeLoop, dif_pos ⟨hΔ, hcur⟩, ih _ hnext]
    refine Prod.ext ?_ ?_
    · show (current + p.delta_sigma_t) ::
        ((List.range n).map fun k : ℕ =>
          current + p.delta_sigma_t + ((k : ℝ) + 1) * p.delta_sigma_t) =
        (List.range (n + 1)).map fun k : ℕ => current + ((k : ℝ) + 1) * p.delta_sigma_t
      rw [map_range_succ_shift]
      congr 1
      · push_cast
        ring
      · congr 1
        funext k
        push_cast
        ring
    · show epsilon_t p (current + p.delta_sigma_t) ::
        ((List.range n).map fun k : ℕ =>
          epsilon_t p (current + p.delta_sigma_t + ((k : ℝ) + 1) * p.delta_sigma_t)) =
        (List.range (n + 1)).map fun k : ℕ =>
          epsilon_t p (current + ((k : ℝ) + 1) * p.delta_sigma_t)
      rw [map_range_succ_shift]
      congr 1
      · congr 1
        push_cast
        ring
      · congr 1
        funext k
        congr 1
        push_cast
        ring

/-- The stress half of the loop, from 0: the arithmetic progression
`Δ, 2Δ, …, nΔ` with `n = iters p 0`. -/
theorem computeLoop_zero_fst (p : Params) (hΔ : 0 < p.delta_sigma_t) :
    (computeLoop p 0).1 =
      (List.range (iters p 0)).map fun k : ℕ => ((k : ℝ) + 1) * p.delta_sigma_t := by
  rw [computeLoop_closed p hΔ (iters p 0) 0 rfl]
  simp

theorem roundTo_nonneg (n : ℕ) (x : ℝ) (hx : 0 ≤ x) : 0 ≤ roundTo n x := by
  unfold roundTo
  apply div_nonneg _ (by positivity)
  have hy : (0 : ℝ) ≤ x * 10 ^ n := mul_nonneg hx (by positivity)
  have : 0 ≤ round (x * 10 ^ n) := by
    rw [round_eq]
    exact Int.floor_nonneg.mpr (by linarith)
  exact_mod_cast this

theorem sigma_uts_t_nonneg (p : Params) (hu : 0 < p.sigma_uts) :
    0 ≤ sigma_uts_t p :=
  roundTo_nonneg 2 _ (mul_nonneg hu.le (Real.exp_pos _).le)

theorem getLast?_cons_append (x : ℝ) (l : List ℝ) (t : ℝ) :
    (x :: l ++ [t]).getLast? = some t :=
  List.getLast?_concat _

/-- The final running stress of the loop never exceeds the (rounded) true
ultimate tensile stress. -/
theorem iters_zero_mul_le (p : Params) (hΔ : 0 < p.delta_sigma_t)
    (h0 : 0 ≤ sigma_uts_t p) :
    (iters p 0 : ℝ) * p.delta_sigma_t ≤ sigma_uts_t p := by
  unfold iters
  rcases le_or_lt (⌈(sigma_uts_t p - p.delta_sigma_t - 0) / p.delta_sigma_t⌉) 0 with h | h
  · rw [Int.toNat_of_nonpos h]
    simpa using h0
  · have hcast :
        ((⌈(sigma_uts_t p - p.delta_sigma_t - 0) / p.delta_sigma_t⌉.toNat : ℕ) : ℝ) =
          ((⌈(sigma_uts_t p - p.delta_sigma_t - 0) / p.delta_sigma_t⌉ : ℤ) : ℝ) := by
      exact_mod_cast Int.toNat_of_nonneg h.le
    rw [hcast]
    have hc := Int.ceil_lt_add_one
      ((sigma_uts_t p - p.delta_sigma_t - 0) / p.delta_sigma_t)
    have hmul := mul_lt_mul_of_pos_right hc hΔ
    have heq : ((sigma_uts_t p - p.delta_sigma_t - 0) / p.delta_sigma_t + 1) *
        p.delta_sigma_t = sigma_uts_t p := by
      field_simp
    linarith

/-- C2: for every parameter record, the last element of the stress sequence
returned by `compute` is `sigma_uts * exp m2` rounded to 2 decimals, and the
last element of the strain sequence is `epsilon_t` evaluated at that rounded
stress value. -/
theorem claim_C2 (p : Params) :
    (compute p).1.getLast? = some (roundTo 2 (p.sigma_uts * Real.exp p.m2)) ∧
    (compute p).2.getLast? = some (epsilon_t p (sigma_uts_t p)) :=
  ⟨getLast?_cons_append 0 (computeLoop p 0).1 (sigma_uts_t p),
   getLast?_cons_append 0 (computeLoop p 0).2 (epsilon_t p (sigma_uts_t p))⟩

/-- C8: for every parameter record, `compute` returns two non-empty
sequences whose first elements are both exactly 0, i.e. the curve starts at
the point (0.0, 0.0). -/
theorem claim_C8 (p : Params) :
    (compute p).1 ≠ [] ∧ (compute p).2 ≠ [] ∧
    (compute p).1.head? = some 0 ∧ (compute p).2.head? = some 0 :=
  ⟨by simp [compute], by simp [compute], rfl, rfl⟩

/-- C9: for every parameter record with a positive stress step, the stepping
loop of `compute` performs a number of iterations that is determined a
priori by `(true_uts - stress_step) / stress_step` alone: the loop appends
exactly `⌈(sigma_uts_t - delta_sigma_t) / delta_sigma_t⌉⁺` stress values,
and the full stress sequence has that length plus 2. -/
theorem claim_C9 (p : Params) (hΔ : 0 < p.delta_sigma_t) :
    (computeLoop p 0).1.length =
      (⌈(sigma_uts_t p - p.delta_sigma_t) / p.delta_sigma_t⌉).toNat ∧
    (compute p).1.length =
      (⌈(sigma_uts_t p - p.delta_sigma_t) / p.delta_sigma_t⌉).toNat + 2 := by
  have h1 : (computeLoop p 0).1.length = iters p 0 := by
    rw [computeLoop_zero_fst p hΔ]
    simp
  have h2 : iters p 0 =
      (⌈(sigma_uts_t p - p.delta_sigma_t) / p.delta_sigma_t⌉).toNat := by
    unfold iters
    norm_num
  refine ⟨h1.trans h2, ?_⟩
  show ((0 : ℝ) :: (computeLoop p 0).1 ++ [sigma_uts_t p]).length = _
  rw [List.length_append, List.length_cons, List.length_singleton, h1.trans h2]

/-- Witness for C9 at the concrete material of src/main.py. -/
theorem claim_C9_witness :
    (computeLoop ⟨190.32, 403.38, 198740, 0.6, 2e-5, 10⟩ 0).1.length =
      (⌈(sigma_uts_t ⟨190.32, 403.38, 198740, 0.6, 2e-5, 10⟩ - 10) / 10⌉).toNat ∧
    (compute ⟨190.32, 403.38, 198740, 0.6, 2e-5, 10⟩).1.length =
      (⌈(sigma_uts_t ⟨190.32, 403.38, 198740, 0.6, 2e-5, 10⟩ - 10) / 10⌉).toNat + 2 :=
  claim_C9 ⟨190.32, 403.38, 198740, 0.6, 2e-5, 10⟩ (show (0 : ℝ) < 10 by norm_num)

/-- The stress values appended by the loop form an arithmetic progression
with common difference the stress step. -/
theorem chain_arith (c d : ℝ) (n : ℕ) :
    List.Chain' (fun a b => b - a = d)
      (c :: (List.range n).map fun k : ℕ => c + ((k : ℝ) + 1) * d) := by
  induction n generalizing c with
  | zero => simp
  | succ n ih =>
    simp only [map_range_succ_shift]
    refine List.chain'_cons.mpr ⟨by push_cast; ring, ?_⟩
    have hb : c + (((0 : ℕ) : ℝ) + 1) * d = c + d := by push_cast; ring
    have h2 : (fun k : ℕ => c + ((((k + 1 : ℕ)) : ℝ) + 1) * d) =
        fun k : ℕ => (c + d) + ((k : ℝ) + 1) * d := by
      funext k
      push_cast
      ring
    rw [hb, h2]
    exact ih (c + d)

/-- C3: for every parameter record with a positive stress step and positive
ultimate stress, the stress values returned by `compute` are non-decreasing,
and every pair of consecutive stress values except possibly the last pair
differs by exactly the stress step. -/
theorem claim_C3 (p : Params) (hΔ : 0 < p.delta_sigma_t) (hu : 0 < p.sigma_uts) :
    List.Chain' (· ≤ ·) (compute p).1 ∧
    List.Chain' (fun a b => b - a = p.delta_sigma_t) (compute p).1.dropLast := by
  have h0 := sigma_uts_t_nonneg p hu
  have hlist : (compute p).1 =
      ((0 : ℝ) :: ((List.range (iters p 0)).map
        fun k : ℕ => ((k : ℝ) + 1) * p.delta_sigma_t)) ++ [sigma_uts_t p] := by
    show (0 : ℝ) :: (computeLoop p 0).1 ++ [sigma_uts_t p] = _
    rw [computeLoop_zero_fst p hΔ]
  have hgap : List.Chain' (fun a b => b - a = p.delta_sigma_t)
      ((0 : ℝ) :: ((List.range (iters p 0)).map
        fun k : ℕ => ((k : ℝ) + 1) * p.delta_sigma_t)) := by
    have h2 : ((List.range (iters p 0)).map
        fun k : ℕ => ((k : ℝ) + 1) * p.delta_sigma_t) =
        ((List.range (iters p 0)).map
          fun k : ℕ => 0 + ((k : ℝ) + 1) * p.delta_sigma_t) := by
      congr 1
      funext k
      ring
    rw [h2]
    exact chain_arith 0 p.delta_sigma_t (iters p 0)
  have hlast : ∀ x : ℝ, ((0 : ℝ) :: ((List.range (iters p 0)).map
      fun k : ℕ => ((k : ℝ) + 1) * p.delta_sigma_t)).getLast? = some x →
      x ≤ sigma_uts_t p := by
    intro x hx
    cases hn : iters p 0 with
    | zero =>
      rw [hn] at hx
      simp at hx
      rw [← hx]
      exact h0
    | succ m =>
      rw [hn, List.range_succ, List.map_append, List.map_singleton,
        ← List.cons_append, List.getLast?_concat] at hx
      have hx2 : x = ((m : ℝ) + 1) * p.delta_sigma_t := by
        exact (Option.some_injective ℝ hx).symm
      have hcast : ((m : ℝ) + 1) = ((iters p 0 : ℕ) : ℝ) := by
        rw [hn]
        push_cast
        ring
      rw [hx2, hcast]
      exact iters_zero_mul_le p hΔ h0
  constructor
  · rw [hlist]
    apply List.chain'_append.mpr
    refine ⟨List.Chain'.imp ?_ hgap, List.chain'_singleton _, ?_⟩
    · intro a b hab
      have : b = a + p.delta_sigma_t := by linarith
      linarith
    · intro x hx y hy
      simp only [List.head?_cons, Option.mem_def, Option.some.injEq] at hy
      rw [← hy]
      exact hlast x (Option.mem_def.mp hx)
  · rw [hlist, List.dropLast_concat]
    exact hgap

/-- Witness for C3 at the concrete material of src/main.py. -/
theorem claim_C3_witness :
    List.Chain' (· ≤ ·) (compute ⟨190.32, 403.38, 198740, 0.6, 2e-5, 10⟩).1 ∧
    List.Chain' (fun a b => b - a = 10)
      (compute ⟨190.32, 403.38, 198740, 0.6, 2e-5, 10⟩).1.dropLast :=
  claim_C3 ⟨190.32, 403.38, 198740, 0.6, 2e-5, 10⟩
    (show (0 : ℝ) < 10 by norm_num) (show (0 : ℝ) < 403.38 by norm_num)

noncomputable section

/-- Spec formula: R = sigma_ys / sigma_uts (yield-to-tensile ratio). -/
def specR (p : Params) : ℝ := p.sigma_ys / p.sigma_uts

/-- Spec formula: K = 1.5 R^1.5 - 0.5 R^2.5 - R^3.5. -/
def specK (p : Params) : ℝ :=
  1.5 * specR p ^ (1.5 : ℝ) - 0.5 * specR p ^ (2.5 : ℝ) - specR p ^ (3.5 : ℝ)

/-- Spec formula: H(sigma_t), the blending-function argument. -/
def specH (p : Params) (sigma_t : ℝ) : ℝ :=
  2 * (sigma_t - (p.sigma_ys + specK p * (p.sigma_uts - p.sigma_ys))) /
    (specK p * (p.sigma_uts - p.sigma_ys))

/-- Spec formula: m1, the elastic-region fitting exponent. -/
def specM1 (p : Params) : ℝ :=
  (Real.logb 10 (specR p) + (p.ε_p - ε_ys)) /
    Real.logb 10 (Real.logb 10 (1 + p.ε_p) / Real.logb 10 (1 + ε_ys))

/-- Spec formula: A1, the elastic-region fitting constant. -/
def specA1 (p : Params) : ℝ :=
  p.sigma_ys * (1 + ε_ys) / Real.logb 10 (1 + ε_ys) ^ specM1 p

/-- Spec formula: A2, the plastic-region fitting constant. -/
def specA2 (p : Params) : ℝ :=
  p.sigma_uts * Real.exp p.m2 / p.m2 ^ p.m2

/-- Spec formula: epsilon_1(sigma_t) = (sigma_t / A1)^(1/m1). -/
def specEpsilon1 (p : Params) (sigma_t : ℝ) : ℝ :=
  (sigma_t / specA1 p) ^ (1 / specM1 p)

/-- Spec formula: epsilon_2(sigma_t) = (sigma_t / A2)^(1/m2). -/
def specEpsilon2 (p : Params) (sigma_t : ℝ) : ℝ :=
  (sigma_t / specA2 p) ^ (1 / p.m2)

/-- Spec formula: gamma_1(sigma_t) = (epsilon_1 / 2) (1 - tanh H). -/
def specGamma1 (p : Params) (sigma_t : ℝ) : ℝ :=
  specEpsilon1 p sigma_t / 2 * (1 - Real.tanh (specH p sigma_t))

/-- Spec formula: gamma_2(sigma_t) = (epsilon_2 / 2) (1 + tanh H). -/
def specGamma2 (p : Params) (sigma_t : ℝ) : ℝ :=
  specEpsilon2 p sigma_t / 2 * (1 + Real.tanh (specH p sigma_t))

end

/-- C1: for every parameter record and every query true stress, the total
true strain computed by the code equals sigma_t/Ey rounded to 4 decimals
when the manually computed gamma_1 + gamma_2 (per the spec formula table)
is at most epsilon_p, and otherwise equals sigma_t/Ey + gamma_1 + gamma_2
rounded to 3 decimals. -/
theorem claim_C1 (p : Params) (sigma_t : ℝ) :
    epsilon_t p sigma_t =
      if specGamma1 p sigma_t + specGamma2 p sigma_t ≤ p.ε_p then
        roundTo 4 (sigma_t / p.Ey)
      else
        roundTo 3 (sigma_t / p.Ey + specGamma1 p sigma_t + specGamma2 p sigma_t) := by
  have hg1 : specGamma1 p sigma_t = gamma_1 p sigma_t := by
    unfold specGamma1 gamma_1 specEpsilon1 epsilon_1 specA1 A1 specM1 m1 specH H
      specK K specR R
    norm_num
  have hg2 : specGamma2 p sigma_t = gamma_2 p sigma_t := by
    unfold specGamma2 gamma_2 specEpsilon2 epsilon_2 specA2 A_2 specH H
      specK K specR R
    norm_num
  rw [hg1, hg2, epsilon_t]

/-- C10: for positive sigma_uts and positive m2, the macro-strain candidate
epsilon_2 evaluated at the unrounded true ultimate stress
sigma_uts * exp m2 equals m2 exactly. -/
theorem claim_C10 (p : Params) (hu : 0 < p.sigma_uts) (hm : 0 < p.m2) :
    epsilon_2 p (p.sigma_uts * Real.exp p.m2) = p.m2 := by
  have hb : (0 : ℝ) < p.m2 ^ p.m2 := Real.rpow_pos_of_pos hm _
  have ha : (0 : ℝ) < p.sigma_uts * Real.exp p.m2 :=
    mul_pos hu (Real.exp_pos _)
  unfold epsilon_2 A_2
  have key : p.sigma_uts * Real.exp p.m2 /
      (p.sigma_uts * Real.exp p.m2 / p.m2 ^ p.m2) = p.m2 ^ p.m2 := by
    field_simp
  rw [key, ← Real.rpow_mul hm.le, mul_one_div, div_self hm.ne', Real.rpow_one]

/-- Witness for C10 at the concrete material of src/main.py. -/
theorem claim_C10_witness :
    epsilon_2 ⟨190.32, 403.38, 198740, 0.6, 2e-5, 10⟩ (403.38 * Real.exp 0.6) = 0.6 :=
  claim_C10 ⟨190.32, 403.38, 198740, 0.6, 2e-5, 10⟩
    (show (0 : ℝ) < 403.38 by norm_num) (show (0 : ℝ) < 0.6 by norm_num)

/-- The Python exception classes the embedded arithmetic can raise
(built-in `ValueError` from math.log10 on a non-positive argument, built-in
`ZeroDivisionError` from float division by zero), together with the typed
`DomainError` that the spec asks for — the code defines no such type and
never produces it. -/
inductive PyErr
  | valueError
  | zeroDivisionError
  | domainError

/-- `__init__` of src/stress_strain_curve.py: the six arguments are stored
unchanged; the body contains no `raise` and no validity check, so
construction always succeeds. -/
def initStressStraineCurve
    (sigma_ys sigma_uts Ey m2 epsilon_p delta_sigma_t : ℝ) :
    Except PyErr Params :=
  Except.ok ⟨sigma_ys, sigma_uts, Ey, m2, epsilon_p, delta_sigma_t⟩

noncomputable section

/-- Python float division, which raises `ZeroDivisionError` on a zero
denominator. -/
def divE (a b : ℝ) : Except PyErr ℝ :=
  if b = 0 then Except.error PyErr.zeroDivisionError else Except.ok (a / b)

/-- Python `math.log10`, which raises `ValueError` on a non-positive
argument. -/
def log10E (x : ℝ) : Except PyErr ℝ :=
  if x ≤ 0 then Except.error PyErr.valueError else Except.ok (Real.logb 10 x)

/-- `_R` with Python error propagation. -/
def R_E (p : Params) : Except PyErr ℝ := divE p.sigma_ys p.sigma_uts

/-- `K` with Python error propagation. -/
def K_E (p : Params) : Except PyErr ℝ :=
  match R_E p with
  | Except.error e => Except.error e
  | Except.ok r =>
      Except.ok (1.5 * r ^ (1.5 : ℝ) - 0.5 * r ^ (2.5 : ℝ) - r ^ (3.5 : ℝ))

/-- `_H` with Python error propagation: the division by
`K * (sigma_uts - sigma_ys)` raises `ZeroDivisionError` when that
denominator is zero. -/
def H_E (p : Params) (sigma_t : ℝ) : Except PyErr ℝ :=
  match K_E p with
  | Except.error e => Except.error e
  | Except.ok k =>
      divE (2 * (sigma_t - (p.sigma_ys + k * (p.sigma_uts - p.sigma_ys))))
        (k * (p.sigma_uts - p.sigma_ys))

/-- `_m1` with Python error propagation, evaluating the subterms in the
order Python does: log10(R), then log10(1+eps_p), log10(1+eps_ys), their
quotient, the outer log10, and the final division. -/
def m1E (p : Params) : Except PyErr ℝ :=
  match R_E p with
  | Except.error e => Except.error e
  | Except.ok r =>
      match log10E r with
      | Except.error e => Except.error e
      | Except.ok l1 =>
          match log10E (1 + p.ε_p) with
          | Except.error e => Except.error e
          | Except.ok la =>
              match log10E (1 + ε_ys) with
              | Except.error e => Except.error e
              | Except.ok lb =>
                  match divE la lb with
                  | Except.error e => Except.error e
                  | Except.ok ratio =>
                      match log10E ratio with
                      | Except.error e => Except.error e
                      | Except.ok ld => divE (l1 + (p.ε_p - ε_ys)) ld

end

theorem R_E_ok (p : Params) (h : p.sigma_uts ≠ 0) :
    R_E p = Except.ok (R p) := by
  simp [R_E, divE, R, h]

theorem K_E_ok (p : Params) (h : p.sigma_uts ≠ 0) :
    K_E p = Except.ok (K p) := by
  rw [K_E, R_E_ok p h]
  rfl

/-- C5 counterexample: with sigma_ys = sigma_uts = 403.38 the `_H` formula
divides by the zero denominator K * (sigma_uts - sigma_ys); the code raises
the built-in `ZeroDivisionError`, not a typed `DomainError`. -/
theorem claim_C5_counterexample :
    H_E ⟨403.38, 403.38, 198740, 0.6, 2e-5, 10⟩ 100 =
      Except.error PyErr.zeroDivisionError ∧
    H_E ⟨403.38, 403.38, 198740, 0.6, 2e-5, 10⟩ 100 ≠
      Except.error PyErr.domainError := by
  have h : H_E ⟨403.38, 403.38, 198740, 0.6, 2e-5, 10⟩ 100 =
      Except.error PyErr.zeroDivisionError := by
    rw [H_E, K_E_ok _ (show (403.38 : ℝ) ≠ 0 by norm_num)]
    show divE _ (K _ * ((403.38 : ℝ) - 403.38)) = _
    rw [divE, if_pos (by ring_nf : K ⟨403.38, 403.38, 198740, 0.6, 2e-5, 10⟩ *
      ((403.38 : ℝ) - 403.38) = 0)]
  refine ⟨h, ?_⟩
  rw [h]
  intro hc
  exact PyErr.noConfusion (Except.error.inj hc)

/-- C5 amended: when a derived-quantity formula hits an undefined operation,
the code raises the corresponding Python built-in exception — `ValueError`
for log10 of a non-positive ratio R in `_m1`, `ZeroDivisionError` for the
zero denominator K * (sigma_uts - sigma_ys) in `_H` — and not a typed
`DomainError`. -/
theorem claim_C5 (p : Params) (sigma_t : ℝ) :
    (p.sigma_uts ≠ 0 → R p ≤ 0 → m1E p = Except.error PyErr.valueError) ∧
    (p.sigma_uts ≠ 0 → K p * (p.sigma_uts - p.sigma_ys) = 0 →
      H_E p sigma_t = Except.error PyErr.zeroDivisionError) := by
  constructor
  · intro h hR
    rw [m1E, R_E_ok p h]
    show (match log10E (R p) with
      | Except.error e => Except.error e
      | Except.ok l1 => _) = _
    rw [log10E, if_pos hR]
  · intro h hden
    rw [H_E, K_E_ok p h]
    show divE _ (K p * (p.sigma_uts - p.sigma_ys)) = _
    rw [divE, if_pos hden]

/-- Witness for C5: a negative yield stress makes R negative (ValueError in
`_m1`), and equal yield and ultimate stress zero the `_H` denominator
(ZeroDivisionError). -/
theorem claim_C5_witness :
    m1E ⟨-190.32, 403.38, 198740, 0.6, 2e-5, 10⟩ =
      Except.error PyErr.valueError ∧
    H_E ⟨403.38, 403.38, 198740, 0.6, 2e-5, 10⟩ 50 =
      Except.error PyErr.zeroDivisionError :=
  ⟨(claim_C5 ⟨-190.32, 403.38, 198740, 0.6, 2e-5, 10⟩ 50).1
      (show (403.38 : ℝ) ≠ 0 by norm_num)
      (show (-190.32 : ℝ) / 403.38 ≤ 0 by norm_num),
   (claim_C5 ⟨403.38, 403.38, 198740, 0.6, 2e-5, 10⟩ 50).2
      (show (403.38 : ℝ) ≠ 0 by norm_num)
      (show K ⟨403.38, 403.38, 198740, 0.6, 2e-5, 10⟩ *
        ((403.38 : ℝ) - 403.38) = 0 by ring_nf)⟩

/-- C4 counterexample: constructing with yield_stress = 403.38 strictly
greater than ultimate_stress = 190.32 violates the claimed precondition,
yet construction succeeds. -/
theorem claim_C4_counterexample :
    (190.32 : ℝ) < 403.38 ∧
    initStressStraineCurve 403.38 190.32 198740 0.6 2e-5 10 =
      Except.ok ⟨403.38, 190.32, 198740, 0.6, 2e-5, 10⟩ :=
  ⟨by norm_num, rfl⟩

/-- C4 amended: constructing the parameter record never fails — the
constructor performs no validation and stores the six arguments unchanged,
whatever their values. -/
theorem claim_C4 (sigma_ys sigma_uts Ey m2 epsilon_p delta_sigma_t : ℝ) :
    initStressStraineCurve sigma_ys sigma_uts Ey m2 epsilon_p delta_sigma_t =
      Except.ok ⟨sigma_ys, sigma_uts, Ey, m2, epsilon_p, delta_sigma_t⟩ :=
  rfl

/-- `sigma_uts_t` of the legacy variant src/stress_strain_cuve.py: the true
ultimate tensile stress, not rounded. -/
noncomputable def sigma_uts_t_cuve (p : Params) : ℝ :=
  p.sigma_uts * Real.exp p.m2

/-- The `while` loop of `compute` in the legacy variant: it only advances
the running stress and appends nothing (same positive-step guard convention
as `computeLoop`). -/
noncomputable def cuveLoopFinal (p : Params) (current : ℝ) : ℝ :=
  if h : 0 < p.delta_sigma_t ∧ current < sigma_uts_t_cuve p - p.delta_sigma_t then
    cuveLoopFinal p (current + p.delta_sigma_t)
  else current
termination_by
  (⌈(sigma_uts_t_cuve p - p.delta_sigma_t - current) / p.delta_sigma_t⌉).toNat
decreasing_by
  exact ceil_toNat_step (sigma_uts_t_cuve p) p.delta_sigma_t current h.1 h.2

/-- `compute` of the legacy variant src/stress_strain_cuve.py: it runs the
stepping loop, discards everything, and returns the constant placeholder
curve ([1.0], [1.0]). -/
noncomputable def compute_cuve (p : Params) : List ℝ × List ℝ :=
  let _ := cuveLoopFinal p 0
  ([1.0], [1.0])

/-- C6: at the degenerate configuration m2 = 0 and epsilon_p = 0 the legacy
variant's curve generation does not raise at all — it returns the constant
dummy curve ([1.0], [1.0]). -/
theorem claim_C6 :
    compute_cuve ⟨190.32, 403.38, 198740, 0, 0, 10⟩ = ([1.0], [1.0]) :=
  rfl

end StressStraineCurve
